import Mathlib

/-!
Verification development for the star-chart projection, layout, sampling and
label-placement core of the `charter` repository.

The Rust sources are shallowly embedded:
* `f64` values are modelled as real numbers (`ℝ`) where trigonometry is
  involved (`geometry.rs::project`), and as elements of a generic linear
  ordered field elsewhere (so the purely order/arithmetic algorithms can be
  executed on `ℚ`);
* fallible results are `Option`;
* `Vec` is `List`.
-/

namespace Charter

open Real

/-- `types.rs::Point` — a tangent-plane or pixel coordinate.  The field type
is generic so the combinatorial algorithms can be run on `ℚ`; the projector
instantiates it at `ℝ`. -/
structure Point (α : Type) where
  x : α
  y : α
deriving DecidableEq, Repr

/-- `types.rs::EQPoint` — RA/Dec in degrees. -/
structure EQPoint where
  ra_deg : ℝ
  dec_deg : ℝ

/-- `types.rs::Projection`. -/
inductive Projection where
  | Gnomonic
  | Stereographic
  | Spherical
  | AltAz
deriving DecidableEq, Repr

/-- `geometry.rs::clamp` (also the semantics of `f64::clamp` used in
`context.rs`): `if x < lo { lo } else if x > hi { hi } else { x }`. -/
def clamp {α : Type} [LinearOrder α] (x lo hi : α) : α :=
  if x < lo then lo else if x > hi then hi else x

/-- Rust `f64::to_radians`: multiplication by `π / 180`. -/
noncomputable def toRadians (d : ℝ) : ℝ := d * (Real.pi / 180)

/-- Real-number model of Rust `f64::atan2(y, x)` (quadrant-correct
two-argument arctangent; the signed-zero distinctions of IEEE-754 collapse,
`atan2 0 0 = 0`). -/
noncomputable def atan2 (y x : ℝ) : ℝ :=
  if 0 < x then Real.arctan (y / x)
  else if x < 0 then
    (if 0 ≤ y then Real.arctan (y / x) + Real.pi else Real.arctan (y / x) - Real.pi)
  else
    (if 0 < y then Real.pi / 2 else if y < 0 then -(Real.pi / 2) else 0)

/-- `geometry.rs::project`.  Mirrors the Rust body: degree→radian conversion,
spherical law of cosines clamped to `[-1,1]` before `acos`, bearing via
`atan2` minus the position angle, far-hemisphere cull for every projection
except stereographic, then the per-projection radial mapping. -/
noncomputable def project (coords center : EQPoint) (projection : Projection)
    (position_angle_deg : ℝ) : Option (Point ℝ) :=
  let ra := toRadians coords.ra_deg
  let dec := toRadians coords.dec_deg
  let cra := toRadians center.ra_deg
  let cde := toRadians center.dec_deg
  let d_ra := ra - cra
  let cos_z := clamp (Real.sin cde * Real.sin dec +
    Real.cos cde * Real.cos dec * Real.cos d_ra) (-1) 1
  let zenith := Real.arccos cos_z
  let ya := Real.sin d_ra * Real.cos dec
  let xa := Real.cos cde * Real.sin dec - Real.sin cde * Real.cos dec * Real.cos d_ra
  let az := atan2 ya xa - toRadians position_angle_deg
  if zenith > Real.pi / 2 ∧ projection ≠ Projection.Stereographic then
    none
  else
    let r := match projection with
      | Projection.Gnomonic => Real.tan zenith
      | Projection.Stereographic => Real.tan (zenith / 2)
      | Projection.Spherical => Real.sin zenith
      | Projection.AltAz => zenith / (Real.pi / 2)
    some ⟨-r * Real.sin az, r * Real.cos az⟩

/-- `geometry.rs::to_pixels`. -/
def to_pixels {α : Type} [LinearOrderedField α] (tp center_px : Point α) (scale : α) :
    Point α :=
  ⟨center_px.x + tp.x * scale, center_px.y - tp.y * scale⟩

/-- Spec-side definition (§4.1): the angular separation (`zenith`) between a
point and the chart center, computed "via the spherical law of cosines …
clamped to [-1,1] before `acos`". -/
noncomputable def zenithSpec (coords center : EQPoint) : ℝ :=
  Real.arccos (clamp
    (Real.sin (toRadians center.dec_deg) * Real.sin (toRadians coords.dec_deg) +
      Real.cos (toRadians center.dec_deg) * Real.cos (toRadians coords.dec_deg) *
        Real.cos (toRadians coords.ra_deg - toRadians center.ra_deg)) (-1) 1)

/-- Spec-side definition (§4.1): the bearing (`azimuth`) from center to point,
"a two-argument arctangent of the relative-RA sine/cosine projection", minus
the position angle in radians. -/
noncomputable def azimuthSpec (coords center : EQPoint) (position_angle_deg : ℝ) : ℝ :=
  atan2
    (Real.sin (toRadians coords.ra_deg - toRadians center.ra_deg) *
      Real.cos (toRadians coords.dec_deg))
    (Real.cos (toRadians center.dec_deg) * Real.sin (toRadians coords.dec_deg) -
      Real.sin (toRadians center.dec_deg) * Real.cos (toRadians coords.dec_deg) *
        Real.cos (toRadians coords.ra_deg - toRadians center.ra_deg)) -
  toRadians position_angle_deg

/-- Spec-side definition (§4.1): the radial mapping table by projection kind. -/
noncomputable def radialSpec (projection : Projection) (zenith : ℝ) : ℝ :=
  match projection with
  | Projection.Gnomonic => Real.tan zenith
  | Projection.Stereographic => Real.tan (zenith / 2)
  | Projection.Spherical => Real.sin zenith
  | Projection.AltAz => zenith / (Real.pi / 2)

/-- Inner loop of `geometry.rs::split_segments`: walk the remaining points,
extending the current run `seg` while both coordinate deltas stay within the
threshold, and starting a new run at each larger jump.  (`seg` is nonempty
throughout, so the source's final `if !seg.is_empty()` guard is vacuously
true and the final run is always emitted.) -/
def split_go {α : Type} [LinearOrderedField α] (threshold : α) :
    Point α → List (Point α) → List (Point α) → List (List (Point α))
  | _, [], seg => [seg]
  | a, b :: rest, seg =>
    if |b.x - a.x| > threshold ∨ |b.y - a.y| > threshold then
      seg :: split_go threshold b rest [b]
    else
      split_go threshold b rest (seg ++ [b])

/-- `geometry.rs::split_segments`. -/
def split_segments {α : Type} [LinearOrderedField α] (points : List (Point α))
    (threshold : α) : List (List (Point α)) :=
  match points with
  | [] => []
  | p :: rest => split_go threshold p rest [p]

/-- Rust `f64::round`: round to nearest, ties away from zero. -/
def rust_round {α : Type} [LinearOrderedField α] [FloorRing α] (x : α) : ℤ :=
  if x < 0 then -⌊-x + 1 / 2⌋ else ⌊x + 1 / 2⌋

/-- `context.rs::ChartContext::adaptive_step_deg`.  The field of view is
modelled as an exact rational (`f64` values are rationals; all operations
here are division, comparison, clamping and rounding).  The Rust cast
`as u32` saturates negatives to zero, which `Int.toNat` matches. -/
def adaptive_step_deg (fov_deg : ℚ) : ℕ :=
  let target : ℚ := if fov_deg ≤ 30 then 240 else if fov_deg ≤ 60 then 180 else 120
  let step := (rust_round (clamp (fov_deg / target) (1 / 2) 4)).toNat
  max step 1

/-- `layers/frame.rs::Side`. -/
inductive Side where
  | Top
  | Bottom
  | Left
  | Right
deriving DecidableEq, Repr

/-- `layers/frame.rs::Mark`. -/
structure Mark (α : Type) where
  x : α
  y : α
  side : Side
  label : String
deriving DecidableEq, Repr

/-- The deduplication key of `layers/frame.rs::dedup_marks`:
`(side, (x*10).round() as i32, (y*10).round() as i32, label)`. -/
def mark_key {α : Type} [LinearOrderedField α] [FloorRing α] (m : Mark α) :
    Side × ℤ × ℤ × String :=
  (m.side, rust_round (m.x * 10), rust_round (m.y * 10), m.label)

/-- Loop of `layers/frame.rs::dedup_marks`; the `HashSet` of already-seen keys
is modelled as the list `seen` (only `insert`/`contains` are used). -/
def dedup_go {α : Type} [LinearOrderedField α] [FloorRing α] :
    List (Side × ℤ × ℤ × String) → List (Mark α) → List (Mark α)
  | _, [] => []
  | seen, m :: rest =>
    if mark_key m ∈ seen then dedup_go seen rest
    else m :: dedup_go (mark_key m :: seen) rest

/-- `layers/frame.rs::dedup_marks`. -/
def dedup_marks {α : Type} [LinearOrderedField α] [FloorRing α]
    (marks : List (Mark α)) : List (Mark α) :=
  dedup_go [] marks

/-- Spec-side definition (§4.6): "duplicate keys collapse to one mark, first
occurrence wins for ordering" — keep each mark whose key has not appeared
earlier in the list. -/
def keep_first_occurrences {α : Type} [LinearOrderedField α] [FloorRing α] :
    List (Mark α) → List (Mark α)
  | [] => []
  | m :: rest =>
    m :: keep_first_occurrences (rest.filter (fun n => decide (mark_key n ≠ mark_key m)))
termination_by l => l.length
decreasing_by
  exact Nat.lt_succ_of_le (List.length_filter_le _ _)

/-- An occupied axis-aligned box of the label engine
(`(x, y, w, h)` = left, top, width, height). -/
structure Box (α : Type) where
  x : α
  y : α
  w : α
  h : α
deriving DecidableEq, Repr

/-- `layers/labels.rs::LabelsLayer::boxes_overlap` (strict intersection:
touching edges do not overlap). -/
def boxes_overlap {α : Type} [LinearOrderedField α] (a b : Box α) : Bool :=
  !(decide (a.x + a.w ≤ b.x) || decide (a.x ≥ b.x + b.w) ||
    decide (a.y + a.h ≤ b.y) || decide (a.y ≥ b.y + b.h))

/-- `layers/labels.rs::LabelsLayer::label_box_centered`
(`String.length` counts characters, as Rust's `chars().count()` does). -/
def label_box_centered {α : Type} [LinearOrderedField α] (x y_baseline : α)
    (t : String) : Box α :=
  let ch : ℕ := max t.length 2
  let w : α := max ((ch : α) * 7) 16
  let h : α := 12
  ⟨x - w / 2, y_baseline - h, w, h⟩

/-- A label candidate (`layers/labels.rs::render`'s local `Cand`). -/
structure Cand (α : Type) where
  magnitude : α
  is_star : Bool
  text : String
  p : Point α
deriving DecidableEq, Repr

/-- An emitted text label: class, anchor x, baseline y, text-anchor, text. -/
structure PlacedLabel (α : Type) where
  cls : String
  x : α
  y : α
  anchor : String
  text : String
deriving DecidableEq, Repr

/-- `layers/labels.rs::LabelsLayer::new`'s fixed offset list. -/
def label_offsets {α : Type} [LinearOrderedField α] : List (α × α) :=
  [(0, -10), (0, 10), (0, -16), (0, 16), (0, -20), (0, 20)]

/-- The inner offset loop of `layers/labels.rs::render`: try each offset in
order; reject a box that exits the plot rectangle or overlaps any previously
placed box; return the anchor x and box of the first valid offset. -/
def try_offsets {α : Type} [LinearOrderedField α] (left top right bottom : α)
    (placed : List (Box α)) (c : Cand α) : List (α × α) → Option (α × Box α)
  | [] => none
  | (dx, dy) :: rest =>
    let ax := c.p.x + dx
    let ay := c.p.y + dy
    let b := label_box_centered ax ay c.text
    if b.x < left ∨ b.x + b.w > right ∨ b.y < top ∨ b.y + b.h > bottom then
      try_offsets left top right bottom placed c rest
    else if placed.any (fun pb => boxes_overlap b pb) then
      try_offsets left top right bottom placed c rest
    else
      some (ax, b)

/-- The outer candidate loop of `layers/labels.rs::render`: accept the first
valid offset, append its box to the occupied list and emit the label; a
candidate with no valid offset is skipped.  Returns the final occupied-box
list and the emitted labels. -/
def place_candidates {α : Type} [LinearOrderedField α] (left top right bottom : α) :
    List (Cand α) → List (Box α) → List (Box α) × List (PlacedLabel α)
  | [], placed => (placed, [])
  | c :: rest, placed =>
    match try_offsets left top right bottom placed c label_offsets with
    | none => place_candidates left top right bottom rest placed
    | some (ax, b) =>
      let out := place_candidates left top right bottom rest (placed ++ [b])
      (out.1,
        ⟨if c.is_star then "star-label" else "object-label",
          ax, b.y + b.h, "middle", c.text⟩ :: out.2)

/-- `cands.sort_by(partial_cmp magnitude)` — Rust's stable ascending sort,
modelled by `List.mergeSort`. -/
def sort_cands {α : Type} [LinearOrderedField α] (cands : List (Cand α)) :
    List (Cand α) :=
  cands.mergeSort (fun a b => decide (a.magnitude ≤ b.magnitude))

/-- The placement phase of `layers/labels.rs::render`: sort the candidates
brightest-first (stable), then place them greedily against the seeded boxes. -/
def render_labels {α : Type} [LinearOrderedField α] (left top right bottom : α)
    (seeds : List (Box α)) (cands : List (Cand α)) :
    List (Box α) × List (PlacedLabel α) :=
  place_candidates left top right bottom (sort_cands cands) seeds

/-- Spec-side predicate (§4.7): a label box "lies entirely within the plot
rectangle" (the negation of the source's rejection test). -/
def in_plot {α : Type} [LinearOrderedField α] (left top right bottom : α)
    (b : Box α) : Bool :=
  decide (left ≤ b.x) && decide (b.x + b.w ≤ right) &&
  decide (top ≤ b.y) && decide (b.y + b.h ≤ bottom)

/-- `types.rs::Size`. -/
structure Size where
  major : ℝ
  minor : ℝ

/-- `types.rs::CelestialObject`. -/
structure CelestialObject where
  kind : String
  catalog : String
  identifier : String
  coords : EQPoint
  magnitude : ℝ
  size : Size
  angle : ℝ
  name : String

/-- Rust `str::contains(pat)` on the underlying character list: does `p`
occur as a contiguous substring? -/
def list_contains_substr (p : List Char) : List Char → Bool
  | [] => p.isEmpty
  | c :: rest => p.isPrefixOf (c :: rest) || list_contains_substr p rest

/-- Rust `str::contains` for strings. -/
def str_contains (s pat : String) : Bool :=
  list_contains_substr pat.toList s.toList

/-- `layers/labels.rs::LabelsLayer::new`: `limit_star_label_mag = 1.0`. -/
def labels_limit_star_label_mag : ℝ := 1

/-- `layers/labels.rs::LabelsLayer::new`: `limit_object_label_mag = 8.0`. -/
def labels_limit_object_label_mag : ℝ := 8

/-- `layers/labels.rs::LabelsLayer::new`: `symbol_pad = 1.0`. -/
def labels_symbol_pad : ℝ := 1

/-- `layers/labels.rs::LabelsLayer::should_label`. -/
noncomputable def should_label (kind : String) (mag : ℝ) : Bool :=
  if str_contains kind.toLower "star" then decide (mag ≤ labels_limit_star_label_mag)
  else decide (mag ≤ labels_limit_object_label_mag)

/-- `layers/labels.rs::LabelsLayer::star_symbol_box`. -/
noncomputable def star_symbol_box (p : Point ℝ) (mag : ℝ) : Box ℝ :=
  let r := max (4 - 0.6 * mag) 0.5 + labels_symbol_pad
  ⟨p.x - r, p.y - r, 2 * r, 2 * r⟩

/-- `layers/labels.rs::LabelsLayer::object_symbol_box`. -/
noncomputable def object_symbol_box (kind : String) (mag : ℝ) (p : Point ℝ) : Box ℝ :=
  let base : ℝ := 10
  let size := max (base - mag) 4
  let pad := labels_symbol_pad
  if kind.toLower = "bright-nebula" then
    let half := size / 2 + pad
    ⟨p.x - half, p.y - half, 2 * half, 2 * half⟩
  else if kind.toLower = "planetary-nebula" then
    let half := size + pad
    ⟨p.x - half, p.y - half, 2 * half, 2 * half⟩
  else if kind.toLower = "galaxy" then
    let rmax := max size (size / 2) + pad
    ⟨p.x - rmax, p.y - rmax, 2 * rmax, 2 * rmax⟩
  else if kind.toLower = "open-cluster" ∨ kind.toLower = "globular-cluster" then
    let r := size / 2 + pad
    ⟨p.x - r, p.y - r, 2 * r, 2 * r⟩
  else
    let half := size / 2 + pad
    ⟨p.x - half, p.y - half, 2 * half, 2 * half⟩

/-- The configuration and layout values consumed by the labels layer
(the used fields of `config.rs::ChartConfig` and `layout.rs::ChartLayout`). -/
structure Ctx where
  center : EQPoint
  projection : Projection
  position_angle_deg : ℝ
  limit_star_mag : ℝ
  limit_object_mag : ℝ
  center_px : Point ℝ
  scale : ℝ

/-- Star half of `layers/labels.rs::LabelsLayer::seed_symbol_boxes`: every
star at/under the star magnitude limit whose projection survives culling
contributes its analytic symbol box. -/
noncomputable def seed_star_boxes (ctx : Ctx) : List CelestialObject → List (Box ℝ)
  | [] => []
  | s :: rest =>
    if s.magnitude > ctx.limit_star_mag then seed_star_boxes ctx rest
    else
      match project s.coords ctx.center ctx.projection ctx.position_angle_deg with
      | none => seed_star_boxes ctx rest
      | some tp =>
        star_symbol_box (to_pixels tp ctx.center_px ctx.scale) s.magnitude ::
          seed_star_boxes ctx rest

/-- Object half of `layers/labels.rs::LabelsLayer::seed_symbol_boxes`. -/
noncomputable def seed_object_boxes (ctx : Ctx) : List CelestialObject → List (Box ℝ)
  | [] => []
  | o :: rest =>
    if o.magnitude > ctx.limit_object_mag then seed_object_boxes ctx rest
    else
      match project o.coords ctx.center ctx.projection ctx.position_angle_deg with
      | none => seed_object_boxes ctx rest
      | some tp =>
        object_symbol_box o.kind o.magnitude (to_pixels tp ctx.center_px ctx.scale) ::
          seed_object_boxes ctx rest

/-- `layers/labels.rs::LabelsLayer::seed_symbol_boxes` (stars pushed first,
then deep-sky objects). -/
noncomputable def seed_symbol_boxes (ctx : Ctx) (stars objs : List CelestialObject) :
    List (Box ℝ) :=
  seed_star_boxes ctx stars ++ seed_object_boxes ctx objs

/-- Candidate text: proper name if present, else `"catalog identifier"`. -/
def cand_text (o : CelestialObject) : String :=
  if o.name = "" then o.catalog ++ " " ++ o.identifier else o.name

/-- Star-candidate loop of `layers/labels.rs::render`: stars passing
`should_label` whose projection survives culling become candidates. -/
noncomputable def star_cands (ctx : Ctx) : List CelestialObject → List (Cand ℝ)
  | [] => []
  | s :: rest =>
    if !(should_label s.kind s.magnitude) then star_cands ctx rest
    else
      match project s.coords ctx.center ctx.projection ctx.position_angle_deg with
      | none => star_cands ctx rest
      | some tp =>
        { magnitude := s.magnitude, is_star := true, text := cand_text s,
          p := to_pixels tp ctx.center_px ctx.scale } :: star_cands ctx rest

/-- Object-candidate loop of `layers/labels.rs::render`: objects passing
`should_label` — or cataloged as Messier (`"M"`), which always fall through —
whose projection survives culling become candidates. -/
noncomputable def object_cands (ctx : Ctx) : List CelestialObject → List (Cand ℝ)
  | [] => []
  | o :: rest =>
    if o.catalog ≠ "M" ∧ !(should_label o.kind o.magnitude) then object_cands ctx rest
    else
      match project o.coords ctx.center ctx.projection ctx.position_angle_deg with
      | none => object_cands ctx rest
      | some tp =>
        { magnitude := o.magnitude, is_star := false, text := cand_text o,
          p := to_pixels tp ctx.center_px ctx.scale } :: object_cands ctx rest

/-- The candidate-building phase of `layers/labels.rs::render` (stars pushed
first, then objects). -/
noncomputable def build_cands (ctx : Ctx) (stars objs : List CelestialObject) :
    List (Cand ℝ) :=
  star_cands ctx stars ++ object_cands ctx objs

/-- Whether a catalog entry survives projection culling. -/
noncomputable def is_visible (ctx : Ctx) (o : CelestialObject) : Bool :=
  (project o.coords ctx.center ctx.projection ctx.position_angle_deg).isSome

/-- Spec-side predicate (§4.3): both coordinate deltas of a consecutive pair
are within the threshold. -/
def within_threshold {α : Type} [LinearOrderedField α] (t : α) (a b : Point α) : Prop :=
  |b.x - a.x| ≤ t ∧ |b.y - a.y| ≤ t

instance {α : Type} [LinearOrderedField α] (t : α) :
    DecidableRel (within_threshold t) := fun a b =>
  decidable_of_iff ((-t ≤ b.x - a.x ∧ b.x - a.x ≤ t) ∧ (-t ≤ b.y - a.y ∧ b.y - a.y ≤ t))
    (by simp [within_threshold, abs_le])

/-- A `Decidable` instance for `List.Chain` that reduces in the kernel. -/
def decChain {α : Type} (r : α → α → Prop) [DecidableRel r] :
    ∀ (a : α) (l : List α), Decidable (List.Chain r a l)
  | _, [] => isTrue List.Chain.nil
  | a, b :: l =>
    @decidable_of_iff _ _ List.chain_cons.symm (@instDecidableAnd _ _ _ (decChain r b l))

instance {α : Type} (r : α → α → Prop) [DecidableRel r] (a : α) (l : List α) :
    Decidable (List.Chain r a l) :=
  decChain r a l

instance {α : Type} (r : α → α → Prop) [DecidableRel r] :
    ∀ (l : List α), Decidable (List.Chain' r l)
  | [] => isTrue trivial
  | _ :: _ => decidable_of_iff (List.Chain r _ _) Iff.rfl


lemma clamp_of_mem {α : Type} [LinearOrder α] {x lo hi : α} (h1 : lo ≤ x) (h2 : x ≤ hi) :
    clamp x lo hi = x := by
  unfold clamp
  rw [if_neg (not_lt.mpr h1), if_neg (not_lt.mpr h2)]

lemma clamp_cos (θ : ℝ) : clamp (Real.cos θ) (-1) 1 = Real.cos θ :=
  clamp_of_mem (Real.neg_one_le_cos θ) (Real.cos_le_one θ)

lemma atan2_pos_zero {y : ℝ} (hy : 0 < y) : atan2 y 0 = Real.pi / 2 := by
  unfold atan2
  rw [if_neg (lt_irrefl 0), if_neg (lt_irrefl 0), if_pos hy]

/-- `project` restated through the spec-side zenith/azimuth/radial functions:
the code and the spec compute the same point. -/
lemma project_eq (coords center : EQPoint) (proj : Projection) (pa : ℝ) :
    project coords center proj pa =
      if Real.pi / 2 < zenithSpec coords center ∧ proj ≠ Projection.Stereographic then
        none
      else
        some ⟨-(radialSpec proj (zenithSpec coords center)) *
                Real.sin (azimuthSpec coords center pa),
              radialSpec proj (zenithSpec coords center) *
                Real.cos (azimuthSpec coords center pa)⟩ := by
  cases proj <;>
    simp only [project, zenithSpec, azimuthSpec, radialSpec]

/-- C1: for every sky point, center and position angle, if the angular
separation (zenith) between point and center exceeds 90°, `project` returns
`none` under the Gnomonic, Spherical and AltAz projections; under the
Stereographic projection `project` returns a value for every input. -/
theorem C1_far_hemisphere_culling :
    (∀ (coords center : EQPoint) (pa : ℝ),
        Real.pi / 2 < zenithSpec coords center →
          project coords center Projection.Gnomonic pa = none ∧
          project coords center Projection.Spherical pa = none ∧
          project coords center Projection.AltAz pa = none) ∧
    (∀ (coords center : EQPoint) (pa : ℝ),
        (project coords center Projection.Stereographic pa).isSome = true) := by
  constructor
  · intro coords center pa h
    refine ⟨?_, ?_, ?_⟩ <;> rw [project_eq] <;> rw [if_pos ⟨h, by decide⟩]
  · intro coords center pa
    rw [project_eq]
    simp

/-- Concrete far-hemisphere input for the C1 witness: a target 120° away on
the equator has zenith 2π/3 > π/2. -/
lemma zenithSpec_equator (d : ℝ) :
    zenithSpec ⟨d, 0⟩ ⟨0, 0⟩ = Real.arccos (Real.cos (toRadians d)) := by
  unfold zenithSpec
  have h0 : toRadians 0 = 0 := by simp [toRadians]
  rw [h0]
  simp [clamp_cos]

lemma zenithSpec_equator_eval {d : ℝ} (h0 : 0 ≤ toRadians d) (h1 : toRadians d ≤ Real.pi) :
    zenithSpec ⟨d, 0⟩ ⟨0, 0⟩ = toRadians d := by
  rw [zenithSpec_equator, Real.arccos_cos h0 h1]

lemma zenithSpec_120 : zenithSpec ⟨120, 0⟩ ⟨0, 0⟩ = 120 * (Real.pi / 180) := by
  have hpi := Real.pi_pos
  have h0 : (0 : ℝ) ≤ toRadians 120 := by unfold toRadians; linarith
  have h1 : toRadians 120 ≤ Real.pi := by unfold toRadians; linarith
  simpa [toRadians] using zenithSpec_equator_eval h0 h1

lemma pi_div_two_lt_zenith_120 : Real.pi / 2 < zenithSpec ⟨120, 0⟩ ⟨0, 0⟩ := by
  have hpi := Real.pi_pos
  rw [zenithSpec_120]
  linarith

/-- Witness for C1 at the concrete far-hemisphere input (120°, 0°) against
center (0°, 0°). -/
theorem C1_far_hemisphere_culling_witness :
    project ⟨120, 0⟩ ⟨0, 0⟩ Projection.Gnomonic 0 = none ∧
    (project ⟨120, 0⟩ ⟨0, 0⟩ Projection.Stereographic 0).isSome = true :=
  ⟨(C1_far_hemisphere_culling.1 ⟨120, 0⟩ ⟨0, 0⟩ 0 pi_div_two_lt_zenith_120).1,
   C1_far_hemisphere_culling.2 ⟨120, 0⟩ ⟨0, 0⟩ 0⟩

/-- C2: whenever `project` returns a point, that point equals
`(-r·sin(azimuth), r·cos(azimuth))` where `azimuth` is the bearing from
center to point minus the position angle in radians and `r` is the
projection's radial mapping applied to the zenith angle. -/
theorem C2_projection_formula (coords center : EQPoint) (proj : Projection) (pa : ℝ)
    (p : Point ℝ) (h : project coords center proj pa = some p) :
    p.x = -(radialSpec proj (zenithSpec coords center)) *
            Real.sin (azimuthSpec coords center pa) ∧
    p.y = radialSpec proj (zenithSpec coords center) *
            Real.cos (azimuthSpec coords center pa) := by
  rw [project_eq] at h
  split at h
  · exact absurd h (by simp)
  · cases h
    exact ⟨rfl, rfl⟩

lemma azimuthSpec_equator (d pa : ℝ) :
    azimuthSpec ⟨d, 0⟩ ⟨0, 0⟩ pa = atan2 (Real.sin (toRadians d)) 0 - toRadians pa := by
  unfold azimuthSpec
  have h0 : toRadians 0 = 0 := by simp [toRadians]
  simp [h0]

lemma toRadians_one : toRadians 1 = Real.pi / 180 := by
  simp [toRadians]

lemma toRadians_ninety : toRadians 90 = Real.pi / 2 := by
  unfold toRadians
  ring

/-- Full evaluation of `project` for a target 1° east of an equatorial
center under the Gnomonic projection, for an arbitrary position angle. -/
lemma project_1deg (pa : ℝ) :
    project ⟨1, 0⟩ ⟨0, 0⟩ Projection.Gnomonic pa =
      some ⟨-Real.tan (Real.pi / 180) * Real.sin (Real.pi / 2 - toRadians pa),
            Real.tan (Real.pi / 180) * Real.cos (Real.pi / 2 - toRadians pa)⟩ := by
  have hpi := Real.pi_pos
  have hz : zenithSpec ⟨1, 0⟩ ⟨0, 0⟩ = Real.pi / 180 := by
    rw [zenithSpec_equator_eval (by rw [toRadians_one]; linarith)
      (by rw [toRadians_one]; linarith), toRadians_one]
  have ha : azimuthSpec ⟨1, 0⟩ ⟨0, 0⟩ pa = Real.pi / 2 - toRadians pa := by
    rw [azimuthSpec_equator, toRadians_one,
      atan2_pos_zero (Real.sin_pos_of_pos_of_lt_pi (by linarith) (by linarith))]
  rw [project_eq, hz, ha, if_neg]
  · rfl
  · rintro ⟨hlt, -⟩
    linarith

lemma project_1deg_pa0 :
    project ⟨1, 0⟩ ⟨0, 0⟩ Projection.Gnomonic 0 =
      some ⟨-Real.tan (Real.pi / 180), 0⟩ := by
  have h0 : toRadians 0 = 0 := by simp [toRadians]
  rw [project_1deg, h0]
  simp

lemma project_1deg_pa90 :
    project ⟨1, 0⟩ ⟨0, 0⟩ Projection.Gnomonic 90 =
      some ⟨0, Real.tan (Real.pi / 180)⟩ := by
  rw [project_1deg, toRadians_ninety]
  simp

/-- Witness for C2 at the concrete input: a star 1° east of the center. -/
theorem C2_projection_formula_witness :
    (Point.mk (-Real.tan (Real.pi / 180)) 0).x =
      -(radialSpec Projection.Gnomonic (zenithSpec ⟨1, 0⟩ ⟨0, 0⟩)) *
        Real.sin (azimuthSpec ⟨1, 0⟩ ⟨0, 0⟩ 0) ∧
    (Point.mk (-Real.tan (Real.pi / 180)) 0).y =
      radialSpec Projection.Gnomonic (zenithSpec ⟨1, 0⟩ ⟨0, 0⟩) *
        Real.cos (azimuthSpec ⟨1, 0⟩ ⟨0, 0⟩ 0) :=
  C2_projection_formula ⟨1, 0⟩ ⟨0, 0⟩ Projection.Gnomonic 0
    ⟨-Real.tan (Real.pi / 180), 0⟩ project_1deg_pa0

lemma toRadians_sub_shift {x y u v : ℝ} {k : ℤ} (h : x - y = u - v + 360 * k) :
    toRadians x - toRadians y = (toRadians u - toRadians v) + k * (2 * Real.pi) := by
  unfold toRadians
  linear_combination (Real.pi / 180) * h

/-- C3: `project` depends on the right ascensions only through the relative
RA modulo 360°, so a wrapped configuration gives exactly the same result as
the equivalent non-wrapping one (hence equal within any tolerance). -/
theorem C3_wraparound_invariance (coords coords' center center' : EQPoint)
    (proj : Projection) (pa : ℝ) (k : ℤ)
    (hdec : coords.dec_deg = coords'.dec_deg)
    (hcdec : center.dec_deg = center'.dec_deg)
    (hra : coords.ra_deg - center.ra_deg = coords'.ra_deg - center'.ra_deg + 360 * k) :
    project coords center proj pa = project coords' center' proj pa := by
  have hsh := toRadians_sub_shift hra
  have hcos : Real.cos (toRadians coords.ra_deg - toRadians center.ra_deg) =
      Real.cos (toRadians coords'.ra_deg - toRadians center'.ra_deg) := by
    rw [hsh, Real.cos_add_int_mul_two_pi]
  have hsin : Real.sin (toRadians coords.ra_deg - toRadians center.ra_deg) =
      Real.sin (toRadians coords'.ra_deg - toRadians center'.ra_deg) := by
    rw [hsh, Real.sin_add_int_mul_two_pi]
  have hz : zenithSpec coords center = zenithSpec coords' center' := by
    unfold zenithSpec
    rw [hdec, hcdec, hcos]
  have ha : azimuthSpec coords center pa = azimuthSpec coords' center' pa := by
    unfold azimuthSpec
    rw [hdec, hcdec, hcos, hsin]
  rw [project_eq, project_eq, hz, ha]

/-- Witness for C3: target (1°,0°) against center (359°,0°) equals target
(3°,0°) against center (1°,0°), Gnomonic, PA = 0 — exactly, hence within
1e-9. -/
theorem C3_wraparound_invariance_witness :
    project ⟨1, 0⟩ ⟨359, 0⟩ Projection.Gnomonic 0 =
      project ⟨3, 0⟩ ⟨1, 0⟩ Projection.Gnomonic 0 :=
  C3_wraparound_invariance ⟨1, 0⟩ ⟨3, 0⟩ ⟨359, 0⟩ ⟨1, 0⟩ Projection.Gnomonic 0 (-1)
    rfl rfl (by norm_num)

/-- Counterexample to C4 as stated: with PA=0 the star 1° east projects to
`(x, y) = (-tan 1°, 0)`; the claim predicts `(-y, x) = (0, -tan 1°)` for
PA=90°, but the code produces `(0, +tan 1°)`. -/
theorem C4_counterexample :
    project ⟨1, 0⟩ ⟨0, 0⟩ Projection.Gnomonic 0 =
      some ⟨-Real.tan (Real.pi / 180), 0⟩ ∧
    project ⟨1, 0⟩ ⟨0, 0⟩ Projection.Gnomonic 90 =
      some ⟨0, Real.tan (Real.pi / 180)⟩ ∧
    ¬ (Point.mk (0 : ℝ) (Real.tan (Real.pi / 180)) =
        Point.mk (-(0 : ℝ)) (-Real.tan (Real.pi / 180))) := by
  have hpi := Real.pi_pos
  have ht : 0 < Real.tan (Real.pi / 180) :=
    Real.tan_pos_of_pos_of_lt_pi_div_two (by linarith) (by linarith)
  refine ⟨project_1deg_pa0, project_1deg_pa90, ?_⟩
  intro h
  rw [Point.mk.injEq] at h
  linarith [h.2]

/-- C4 (amended): for every visible sky point, `project` with position angle
90° yields `(y, -x)` where `(x, y)` is the PA=0 result — the coordinates of
the PA=0 frame rotated so that the point formerly on the -x axis moves to
the +y axis (the code's counterclockwise field rotation). -/
theorem C4_pa90_rotation (coords center : EQPoint) (proj : Projection) (p : Point ℝ)
    (h : project coords center proj 0 = some p) :
    project coords center proj 90 = some ⟨p.y, -p.x⟩ := by
  have haz : azimuthSpec coords center 90 = azimuthSpec coords center 0 - Real.pi / 2 := by
    unfold azimuthSpec
    rw [toRadians_ninety]
    have h0 : toRadians 0 = 0 := by simp [toRadians]
    rw [h0]
    ring
  rw [project_eq] at h ⊢
  split at h
  · exact absurd h (by simp)
  · rw [if_neg (by assumption)]
    cases h
    rw [haz, Real.sin_sub_pi_div_two, Real.cos_sub_pi_div_two]
    simp [Point.mk.injEq]

/-- Witness for the amended C4 at the concrete input 1° east of center. -/
theorem C4_pa90_rotation_witness :
    project ⟨1, 0⟩ ⟨0, 0⟩ Projection.Gnomonic 90 =
      some ⟨0, Real.tan (Real.pi / 180)⟩ := by
  simpa using C4_pa90_rotation ⟨1, 0⟩ ⟨0, 0⟩ Projection.Gnomonic
    ⟨-Real.tan (Real.pi / 180), 0⟩ project_1deg_pa0

lemma toRadians_zero : toRadians 0 = 0 := by
  simp [toRadians]

lemma radialSpec_zero (proj : Projection) : radialSpec proj 0 = 0 := by
  cases proj <;> simp [radialSpec]

lemma zenithSpec_self (center : EQPoint) : zenithSpec center center = 0 := by
  unfold zenithSpec
  rw [sub_self, Real.cos_zero, mul_one]
  have h2 : Real.sin (toRadians center.dec_deg) * Real.sin (toRadians center.dec_deg) +
      Real.cos (toRadians center.dec_deg) * Real.cos (toRadians center.dec_deg) = 1 := by
    rw [← Real.sin_sq_add_cos_sq (toRadians center.dec_deg)]
    ring
  rw [h2, clamp_of_mem (by norm_num) (le_refl 1), Real.arccos_one]

/-- A coincident center and target project to the origin for every
projection and position angle (the radial factor is zero). -/
lemma project_self (center : EQPoint) (proj : Projection) (pa : ℝ) :
    project center center proj pa = some ⟨0, 0⟩ := by
  rw [project_eq, zenithSpec_self, if_neg]
  · simp [radialSpec_zero]
  · rintro ⟨hlt, -⟩
    have := Real.pi_pos
    linarith

/-- A target at zenith exactly 90° is not culled: the cull condition is
strict (`zenith > 90°`). -/
lemma project_zenith_90_isSome :
    (project ⟨90, 0⟩ ⟨0, 0⟩ Projection.Gnomonic 0).isSome = true := by
  have hz : zenithSpec ⟨90, 0⟩ ⟨0, 0⟩ = Real.pi / 2 := by
    rw [zenithSpec_equator, toRadians_ninety, Real.cos_pi_div_two, Real.arccos_zero]
  rw [project_eq, hz, if_neg]
  · simp
  · rintro ⟨hlt, -⟩
    exact lt_irrefl _ hlt

/-- Counterexample to C8 as stated: neither zenith exactly 90° nor a
coincident center/target degrades to the *absence* of a point — `project`
returns `some` in both cases. -/
theorem C8_counterexample :
    (project ⟨90, 0⟩ ⟨0, 0⟩ Projection.Gnomonic 0).isSome = true ∧
    project ⟨10, 20⟩ ⟨10, 20⟩ Projection.Gnomonic 0 = some ⟨0, 0⟩ :=
  ⟨project_zenith_90_isSome, project_self ⟨10, 20⟩ Projection.Gnomonic 0⟩

/-- C8 (amended): the numeric edge cases degrade deterministically —
a coincident center and target project to the origin point `some (0,0)`
(not to absence), zenith exactly 90° is likewise not culled (the cull is
strict), an empty point list yields no segments, and zero label candidates
yield no labels and no error. -/
theorem C8_edge_cases :
    (∀ (center : EQPoint) (proj : Projection) (pa : ℝ),
        project center center proj pa = some ⟨0, 0⟩) ∧
    (project ⟨90, 0⟩ ⟨0, 0⟩ Projection.Gnomonic 0).isSome = true ∧
    (∀ t : ℝ, split_segments ([] : List (Point ℝ)) t = []) ∧
    (∀ (l t r b : ℝ) (seeds : List (Box ℝ)),
        render_labels l t r b seeds [] = (seeds, [])) := by
  refine ⟨project_self, project_zenith_90_isSome, fun t => rfl, fun l t r b seeds => ?_⟩
  simp [render_labels, sort_cands, place_candidates]

lemma split_go_not_jump {α : Type} [LinearOrderedField α] {t : α} {a b : Point α}
    (h : within_threshold t a b) :
    ¬ (|b.x - a.x| > t ∨ |b.y - a.y| > t) := by
  push_neg
  exact h

/-- Along a run where every consecutive delta is within the threshold,
`split_go` just extends the current segment to the end. -/
lemma split_go_of_chain {α : Type} [LinearOrderedField α] {t : α} :
    ∀ {a : Point α} {rest : List (Point α)} (seg : List (Point α)),
      List.Chain (within_threshold t) a rest →
      split_go t a rest seg = [seg ++ rest]
  | _, [], seg, _ => by simp [split_go]
  | a, b :: rest, seg, h => by
    rcases List.chain_cons.mp h with ⟨hab, hrest⟩
    rw [split_go, if_neg (split_go_not_jump hab), split_go_of_chain (seg ++ [b]) hrest]
    simp

/-- Up to the single jump, `split_go` closes the current segment at the
junction and restarts from `b`. -/
lemma split_go_jump_at {α : Type} [LinearOrderedField α] {t : α} {b : Point α}
    {ys : List (Point α)} :
    ∀ (mid : List (Point α)) (a : Point α) (seg : List (Point α)),
      List.Chain (within_threshold t) a mid →
      ¬ within_threshold t ((a :: mid).getLast (List.cons_ne_nil a mid)) b →
      split_go t a (mid ++ b :: ys) seg = (seg ++ mid) :: split_go t b ys [b]
  | [], a, seg, _, hj => by
    rw [List.nil_append, split_go, if_pos]
    · simp
    · rw [List.getLast_singleton] at hj
      rcases not_and_or.mp hj with h | h
      · exact Or.inl (not_le.mp h)
      · exact Or.inr (not_le.mp h)
  | m :: mid, a, seg, hc, hj => by
    rcases List.chain_cons.mp hc with ⟨ham, hmid⟩
    rw [List.cons_append, split_go, if_neg (split_go_not_jump ham),
      split_go_jump_at mid m (seg ++ [m]) hmid (by
        rw [List.getLast_cons_cons] at hj
        exact hj)]
    simp

/-- C6: `split_segments` partitions its input into contiguous runs —
(i) empty input gives no segments; (ii) a single point gives one one-element
segment; (iii) if every consecutive pair is within the threshold the result
is one segment equal to the input; (iv) if exactly one consecutive pair
(`a`,`b`) exceeds the threshold the result is exactly the two maximal runs
split at that boundary; and (v) the segments always concatenate back to the
input. -/
theorem C6_split_segments {α : Type} [LinearOrderedField α] :
    (∀ t : α, split_segments ([] : List (Point α)) t = []) ∧
    (∀ (p : Point α) (t : α), split_segments [p] t = [[p]]) ∧
    (∀ (points : List (Point α)) (t : α), points ≠ [] →
        points.Chain' (within_threshold t) → split_segments points t = [points]) ∧
    (∀ (xs₀ : List (Point α)) (a b : Point α) (ys₀ : List (Point α)) (t : α),
        List.Chain' (within_threshold t) (xs₀ ++ [a]) →
        List.Chain (within_threshold t) b ys₀ →
        ¬ within_threshold t a b →
        split_segments ((xs₀ ++ [a]) ++ b :: ys₀) t = [xs₀ ++ [a], b :: ys₀]) ∧
    (∀ (points : List (Point α)) (t : α), (split_segments points t).flatten = points) := by
  have hjoin : ∀ (t : α) (rest : List (Point α)) (a : Point α) (seg : List (Point α)),
      (split_go t a rest seg).flatten = seg ++ rest := by
    intro t rest
    induction rest with
    | nil => intro a seg; simp [split_go]
    | cons b rest ih =>
      intro a seg
      rw [split_go]
      split
      · simp [ih b [b]]
      · rw [ih b (seg ++ [b])]
        simp
  refine ⟨fun t => rfl, fun p t => rfl, ?_, ?_, ?_⟩
  · intro points t hne hchain
    match points with
    | p :: rest =>
      rw [split_segments, split_go_of_chain [p] hchain]
      simp
  · intro xs₀ a b ys₀ t h1 h2 hj
    match xs₀ with
    | [] =>
      have hstep := @split_go_jump_at _ _ t b ys₀ [] a [a]
        List.Chain.nil (by simpa using hj)
      simp only [List.nil_append, List.append_nil] at hstep
      rw [List.nil_append, List.cons_append, List.nil_append, split_segments, hstep,
        split_go_of_chain [b] h2]
      simp
    | x :: xs₁ =>
      have hc : List.Chain (within_threshold t) x (xs₁ ++ [a]) := h1
      have hlast : ((x :: (xs₁ ++ [a])).getLast
          (List.cons_ne_nil x (xs₁ ++ [a]))) = a :=
        List.getLast_append_singleton (x :: xs₁)
      rw [List.cons_append, List.cons_append, split_segments,
        split_go_jump_at (xs₁ ++ [a]) x [x] hc (by rw [hlast]; exact hj),
        split_go_of_chain [b] h2]
      simp
  · intro points t
    match points with
    | [] => rfl
    | p :: rest => rw [split_segments, hjoin]; simp

/-- Witness for C6 on the repository's own test data
(`split_segments_splits_on_large_jumps`), run on `ℚ`. -/
theorem C6_split_segments_witness :
    split_segments [(⟨0, 0⟩ : Point ℚ), ⟨10, 0⟩, ⟨15, 0⟩, ⟨1000, 0⟩, ⟨1005, 0⟩] 100 =
      [[⟨0, 0⟩, ⟨10, 0⟩, ⟨15, 0⟩], [⟨1000, 0⟩, ⟨1005, 0⟩]] := by
  have h := C6_split_segments.2.2.2.1 [(⟨0, 0⟩ : Point ℚ), ⟨10, 0⟩] ⟨15, 0⟩ ⟨1000, 0⟩
    [⟨1005, 0⟩] 100
    (by norm_num [List.chain'_cons, List.chain'_singleton, within_threshold, abs_le])
    (by norm_num [List.chain_cons, List.Chain.nil, within_threshold, abs_le])
    (by norm_num [within_threshold, abs_le])
  simpa using h

lemma clamp_le_hi {α : Type} [LinearOrderedField α] {x lo hi : α} (h : lo ≤ hi) :
    clamp x lo hi ≤ hi := by
  unfold clamp
  split_ifs <;> linarith

lemma clamp_mono {α : Type} [LinearOrderedField α] {x y lo hi : α}
    (hxy : x ≤ y) (h : lo ≤ hi) : clamp x lo hi ≤ clamp y lo hi := by
  unfold clamp
  split_ifs <;> linarith

lemma rust_round_mono {α : Type} [LinearOrderedField α] [FloorRing α] {x y : α}
    (h : x ≤ y) : rust_round x ≤ rust_round y := by
  unfold rust_round
  split_ifs with h1 h2
  · exact neg_le_neg (Int.floor_mono (by linarith))
  · have l1 : (0 : ℤ) ≤ ⌊-x + 1 / 2⌋ := Int.le_floor.mpr (by push_cast; linarith)
    have l2 : (0 : ℤ) ≤ ⌊y + 1 / 2⌋ := Int.le_floor.mpr (by push_cast; linarith)
    omega
  · exact absurd ‹y < 0› (not_lt.mpr (le_trans (not_lt.mp h1) h))
  · exact Int.floor_mono (by linarith)

lemma rust_round_four : rust_round (4 : ℚ) = 4 := by
  norm_num [rust_round]

lemma adaptive_step_deg_ge_one (f : ℚ) : 1 ≤ adaptive_step_deg f :=
  le_max_right _ 1

lemma adaptive_step_deg_le_four (f : ℚ) : adaptive_step_deg f ≤ 4 := by
  simp only [adaptive_step_deg]
  apply max_le _ (by norm_num)
  rw [show (4 : ℕ) = (4 : ℤ).toNat from rfl]
  apply Int.toNat_le_toNat
  rw [← rust_round_four]
  exact rust_round_mono (clamp_le_hi (by norm_num))

lemma adaptive_step_deg_eq_one_of_le_60 {f : ℚ} (h : f ≤ 60) :
    adaptive_step_deg f = 1 := by
  simp only [adaptive_step_deg]
  by_cases h30 : f ≤ 30
  · rw [if_pos h30, show clamp (f / 240) (1 / 2 : ℚ) 4 = 1 / 2 by
      unfold clamp; rw [if_pos (by linarith)]]
    norm_num [rust_round]
  · rw [if_neg h30, if_pos h, show clamp (f / 180) (1 / 2 : ℚ) 4 = 1 / 2 by
      unfold clamp; rw [if_pos (by linarith)]]
    norm_num [rust_round]

/-- C7: `adaptive_step_deg` is monotonically non-decreasing in the field of
view and always an integer in `[1, 4]`; the three FOV buckets and the
round-and-clamp formula give the anchor values of the repository's tests. -/
theorem C7_adaptive_step :
    (∀ f g : ℚ, f ≤ g → adaptive_step_deg f ≤ adaptive_step_deg g) ∧
    (∀ f : ℚ, 1 ≤ adaptive_step_deg f ∧ adaptive_step_deg f ≤ 4) ∧
    (adaptive_step_deg 30 = 1 ∧ adaptive_step_deg 60 = 1 ∧
      adaptive_step_deg 120 = 1 ∧ adaptive_step_deg 180 = 2 ∧
      adaptive_step_deg 300 = 3 ∧ adaptive_step_deg 1000 = 4) := by
  refine ⟨?_, fun f => ⟨adaptive_step_deg_ge_one f, adaptive_step_deg_le_four f⟩,
    ?_, ?_, ?_, ?_, ?_, ?_⟩
  · intro f g h
    by_cases hg : g ≤ 60
    · rw [adaptive_step_deg_eq_one_of_le_60 (le_trans h hg),
        adaptive_step_deg_eq_one_of_le_60 hg]
    by_cases hf : f ≤ 60
    · rw [adaptive_step_deg_eq_one_of_le_60 hf]
      exact adaptive_step_deg_ge_one g
    push_neg at hf hg
    simp only [adaptive_step_deg]
    rw [if_neg (show ¬ f ≤ 30 by linarith), if_neg (show ¬ f ≤ 60 by linarith),
      if_neg (show ¬ g ≤ 30 by linarith), if_neg (show ¬ g ≤ 60 by linarith)]
    exact max_le_max
      (Int.toNat_le_toNat (rust_round_mono
        (clamp_mono (by linarith) (by norm_num)))) (le_refl 1)
  · exact adaptive_step_deg_eq_one_of_le_60 (by norm_num)
  · exact adaptive_step_deg_eq_one_of_le_60 (by norm_num)
  all_goals norm_num [adaptive_step_deg, rust_round, clamp]
  all_goals decide

/-- Witness for C7 at concrete fields of view. -/
theorem C7_adaptive_step_witness :
    adaptive_step_deg 45 ≤ adaptive_step_deg 300 ∧
    1 ≤ adaptive_step_deg 90 ∧ adaptive_step_deg 90 ≤ 4 :=
  ⟨C7_adaptive_step.1 45 300 (by norm_num), C7_adaptive_step.2.1 90⟩

lemma dedup_go_eq {α : Type} [LinearOrderedField α] [FloorRing α] :
    ∀ (ms : List (Mark α)) (seen : List (Side × ℤ × ℤ × String)),
      dedup_go seen ms =
        keep_first_occurrences (ms.filter (fun m => decide (mark_key m ∉ seen)))
  | [], seen => by simp [dedup_go, keep_first_occurrences]
  | m :: rest, seen => by
    by_cases h : mark_key m ∈ seen
    · rw [dedup_go, if_pos h, List.filter_cons_of_neg (by simp [h]),
        dedup_go_eq rest seen]
    · rw [dedup_go, if_neg h, List.filter_cons_of_pos (by simp [h]),
        keep_first_occurrences, dedup_go_eq rest (mark_key m :: seen)]
      congr 1
      rw [List.filter_filter]
      congr 1
      apply List.filter_congr
      intro n _
      by_cases h1 : mark_key n = mark_key m <;> by_cases h2 : mark_key n ∈ seen <;>
        simp [h1, h2]

lemma keep_first_sublist {α : Type} [LinearOrderedField α] [FloorRing α] :
    ∀ (ms : List (Mark α)), List.Sublist (keep_first_occurrences ms) ms
  | [] => by
    rw [keep_first_occurrences]
  | m :: rest => by
    rw [keep_first_occurrences]
    exact List.Sublist.cons₂ m
      ((keep_first_sublist _).trans (List.filter_sublist _))
termination_by ms => ms.length
decreasing_by
  exact Nat.lt_succ_of_le (List.length_filter_le _ _)

lemma keep_first_nodup {α : Type} [LinearOrderedField α] [FloorRing α] :
    ∀ (ms : List (Mark α)), ((keep_first_occurrences ms).map mark_key).Nodup
  | [] => by
    rw [keep_first_occurrences]
    exact List.nodup_nil
  | m :: rest => by
    rw [keep_first_occurrences, List.map_cons, List.nodup_cons]
    refine ⟨?_, keep_first_nodup _⟩
    intro hmem
    rcases List.mem_map.mp hmem with ⟨n, hn, hkey⟩
    have hmemf : n ∈ rest.filter (fun n => decide (mark_key n ≠ mark_key m)) :=
      (keep_first_sublist _).subset hn
    have hne := (List.mem_filter.mp hmemf).2
    simp only [decide_eq_true_eq] at hne
    exact hne hkey
termination_by ms => ms.length
decreasing_by
  exact Nat.lt_succ_of_le (List.length_filter_le _ _)

/-- C9: `dedup_marks` keys each mark by (side, x rounded to 0.1 px, y rounded
to 0.1 px, label); marks sharing a key collapse to the first occurrence, the
output preserves the order of first occurrences, and the output's keys are
pairwise distinct. -/
theorem C9_dedup_marks {α : Type} [LinearOrderedField α] [FloorRing α]
    (marks : List (Mark α)) :
    dedup_marks marks = keep_first_occurrences marks ∧
    ((dedup_marks marks).map mark_key).Nodup := by
  have hfilter : marks.filter
      (fun m => decide (mark_key m ∉ ([] : List (Side × ℤ × ℤ × String)))) = marks := by
    simp
  constructor
  · rw [dedup_marks, dedup_go_eq, hfilter]
  · rw [dedup_marks, dedup_go_eq, hfilter]
    exact keep_first_nodup marks

lemma project_120_none : project ⟨120, 0⟩ ⟨0, 0⟩ Projection.Gnomonic 0 = none := by
  rw [project_eq, if_pos ⟨pi_div_two_lt_zenith_120, by decide⟩]

lemma seed_star_boxes_filter (ctx : Ctx) (stars : List CelestialObject) :
    seed_star_boxes ctx stars = seed_star_boxes ctx (stars.filter (is_visible ctx)) := by
  induction stars with
  | nil => rfl
  | cons s rest ih =>
    cases hv : project s.coords ctx.center ctx.projection ctx.position_angle_deg with
    | none =>
      rw [List.filter_cons_of_neg (by simp [is_visible, hv])]
      simp only [seed_star_boxes, hv]
      by_cases hmag : s.magnitude > ctx.limit_star_mag <;> simp [hmag, ih]
    | some tp =>
      rw [List.filter_cons_of_pos (by simp [is_visible, hv])]
      simp only [seed_star_boxes, hv]
      by_cases hmag : s.magnitude > ctx.limit_star_mag <;> simp [hmag, ih]

lemma seed_object_boxes_filter (ctx : Ctx) (objs : List CelestialObject) :
    seed_object_boxes ctx objs =
      seed_object_boxes ctx (objs.filter (is_visible ctx)) := by
  induction objs with
  | nil => rfl
  | cons o rest ih =>
    cases hv : project o.coords ctx.center ctx.projection ctx.position_angle_deg with
    | none =>
      rw [List.filter_cons_of_neg (by simp [is_visible, hv])]
      simp only [seed_object_boxes, hv]
      by_cases hmag : o.magnitude > ctx.limit_object_mag <;> simp [hmag, ih]
    | some tp =>
      rw [List.filter_cons_of_pos (by simp [is_visible, hv])]
      simp only [seed_object_boxes, hv]
      by_cases hmag : o.magnitude > ctx.limit_object_mag <;> simp [hmag, ih]

lemma star_cands_filter (ctx : Ctx) (stars : List CelestialObject) :
    star_cands ctx stars = star_cands ctx (stars.filter (is_visible ctx)) := by
  induction stars with
  | nil => rfl
  | cons s rest ih =>
    cases hv : project s.coords ctx.center ctx.projection ctx.position_angle_deg with
    | none =>
      rw [List.filter_cons_of_neg (by simp [is_visible, hv])]
      simp only [star_cands, hv]
      by_cases hsl : should_label s.kind s.magnitude <;> simp [hsl, ih]
    | some tp =>
      rw [List.filter_cons_of_pos (by simp [is_visible, hv])]
      simp only [star_cands, hv]
      by_cases hsl : should_label s.kind s.magnitude <;> simp [hsl, ih]

lemma object_cands_filter (ctx : Ctx) (objs : List CelestialObject) :
    object_cands ctx objs = object_cands ctx (objs.filter (is_visible ctx)) := by
  induction objs with
  | nil => rfl
  | cons o rest ih =>
    cases hv : project o.coords ctx.center ctx.projection ctx.position_angle_deg with
    | none =>
      rw [List.filter_cons_of_neg (by simp [is_visible, hv])]
      simp only [object_cands, hv]
      by_cases hskip : o.catalog ≠ "M" ∧ !(should_label o.kind o.magnitude) <;>
        simp [hskip, ih]
    | some tp =>
      rw [List.filter_cons_of_pos (by simp [is_visible, hv])]
      simp only [object_cands, hv]
      by_cases hskip : o.catalog ≠ "M" ∧ !(should_label o.kind o.magnitude) <;>
        simp [hskip, ih]

/-- C10: a star or object whose coordinates project to `none` never seeds an
occupied symbol box and never becomes a label candidate — seeding and
candidate building are invariant under dropping culled entries, regardless
of magnitudes or Messier status; only `some`-projecting points
participate. -/
theorem C10_culled_points_excluded (ctx : Ctx) (stars objs : List CelestialObject) :
    (seed_symbol_boxes ctx stars objs =
      seed_symbol_boxes ctx (stars.filter (is_visible ctx))
        (objs.filter (is_visible ctx))) ∧
    (build_cands ctx stars objs =
      build_cands ctx (stars.filter (is_visible ctx))
        (objs.filter (is_visible ctx))) ∧
    (∀ s : CelestialObject,
      project s.coords ctx.center ctx.projection ctx.position_angle_deg = none →
        seed_symbol_boxes ctx (s :: stars) objs = seed_symbol_boxes ctx stars objs ∧
        seed_symbol_boxes ctx stars (s :: objs) = seed_symbol_boxes ctx stars objs ∧
        build_cands ctx (s :: stars) objs = build_cands ctx stars objs ∧
        build_cands ctx stars (s :: objs) = build_cands ctx stars objs) := by
  refine ⟨?_, ?_, ?_⟩
  · rw [seed_symbol_boxes, seed_symbol_boxes, ← seed_star_boxes_filter,
      ← seed_object_boxes_filter]
  · rw [build_cands, build_cands, ← star_cands_filter, ← object_cands_filter]
  · intro s hv
    refine ⟨?_, ?_, ?_, ?_⟩
    · rw [seed_symbol_boxes, seed_symbol_boxes]
      simp only [seed_star_boxes, hv]
      by_cases hmag : s.magnitude > ctx.limit_star_mag <;> simp [hmag]
    · rw [seed_symbol_boxes, seed_symbol_boxes]
      simp only [seed_object_boxes, hv]
      by_cases hmag : s.magnitude > ctx.limit_object_mag <;> simp [hmag]
    · rw [build_cands, build_cands]
      simp only [star_cands, hv]
      by_cases hsl : should_label s.kind s.magnitude <;> simp [hsl]
    · rw [build_cands, build_cands]
      simp only [object_cands, hv]
      by_cases hskip : s.catalog ≠ "M" ∧ !(should_label s.kind s.magnitude) <;>
        simp [hskip]

/-- Witness for C10: a bright, named star (passing every magnitude
threshold) on the far hemisphere contributes neither a seeded box nor a
candidate. -/
theorem C10_culled_points_excluded_witness :
    seed_symbol_boxes ⟨⟨0, 0⟩, Projection.Gnomonic, 0, 10, 11, ⟨400, 400⟩, 100⟩
        [⟨"star", "HIP", "1", ⟨120, 0⟩, 0.5, ⟨0, 0⟩, 0, "Vega"⟩] [] =
      seed_symbol_boxes ⟨⟨0, 0⟩, Projection.Gnomonic, 0, 10, 11, ⟨400, 400⟩, 100⟩
        [] [] ∧
    build_cands ⟨⟨0, 0⟩, Projection.Gnomonic, 0, 10, 11, ⟨400, 400⟩, 100⟩
        [⟨"star", "HIP", "1", ⟨120, 0⟩, 0.5, ⟨0, 0⟩, 0, "Vega"⟩] [] =
      build_cands ⟨⟨0, 0⟩, Projection.Gnomonic, 0, 10, 11, ⟨400, 400⟩, 100⟩ [] [] := by
  have h := (C10_culled_points_excluded
    ⟨⟨0, 0⟩, Projection.Gnomonic, 0, 10, 11, ⟨400, 400⟩, 100⟩ [] []).2.2
    ⟨"star", "HIP", "1", ⟨120, 0⟩, 0.5, ⟨0, 0⟩, 0, "Vega"⟩ project_120_none
  exact ⟨h.1, h.2.2.1⟩

lemma getElem_mem_take {β : Type} {l : List β} {k i : ℕ} (hk : k < i)
    (hkl : k < l.length) : l[k] ∈ l.take i := by
  have h := @List.getElem?_take_of_lt _ l i k hk
  rw [List.getElem?_eq_getElem hkl] at h
  obtain ⟨hlen, e⟩ := List.getElem?_eq_some_iff.mp h
  exact e ▸ List.getElem_mem hlen

lemma try_offsets_sound {α : Type} [LinearOrderedField α] {left top right bottom : α}
    {placed : List (Box α)} {c : Cand α} :
    ∀ {offs : List (α × α)} {ax : α} {bx : Box α},
      try_offsets left top right bottom placed c offs = some (ax, bx) →
      in_plot left top right bottom bx = true ∧
      ∀ pb ∈ placed, boxes_overlap bx pb = false := by
  intro offs
  induction offs with
  | nil => intro ax bx h; simp [try_offsets] at h
  | cons o rest ih =>
    intro ax bx h
    obtain ⟨dx, dy⟩ := o
    simp only [try_offsets] at h
    split_ifs at h with h1 h2
    · exact ih h
    · exact ih h
    · rw [Option.some_inj, Prod.mk.injEq] at h
      obtain ⟨-, hb⟩ := h
      subst hb
      push_neg at h1
      obtain ⟨hb1, hb2, hb3, hb4⟩ := h1
      constructor
      · simp only [in_plot, Bool.and_eq_true, decide_eq_true_eq]
        exact ⟨⟨⟨not_lt.mp (by simpa using hb1), hb2⟩, not_lt.mp (by simpa using hb3)⟩,
          hb4⟩
      · intro pb hpb
        rcases Bool.eq_false_or_eq_true (boxes_overlap
          (label_box_centered (c.p.x + dx) (c.p.y + dy) c.text) pb) with ht | hf
        · exact absurd (List.any_eq_true.mpr ⟨pb, hpb, ht⟩) h2
        · exact hf

lemma place_candidates_spec {α : Type} [LinearOrderedField α]
    (left top right bottom : α) :
    ∀ (cs : List (Cand α)) (placed : List (Box α)),
      ∃ acc : List (Box α),
        (place_candidates left top right bottom cs placed).1 = placed ++ acc ∧
        (∀ i (hi : i < acc.length),
          in_plot left top right bottom (acc.get ⟨i, hi⟩) = true ∧
          ∀ pb ∈ placed ++ acc.take i,
            boxes_overlap (acc.get ⟨i, hi⟩) pb = false) ∧
        (place_candidates left top right bottom cs placed).2.length ≤ cs.length := by
  intro cs
  induction cs with
  | nil =>
    intro placed
    exact ⟨[], by simp [place_candidates], fun i hi => absurd hi (by simp),
      by simp [place_candidates]⟩
  | cons c rest ih =>
    intro placed
    cases htry : try_offsets left top right bottom placed c label_offsets with
    | none =>
      obtain ⟨acc, h1, h2, h3⟩ := ih placed
      refine ⟨acc, ?_, h2, ?_⟩
      · simp only [place_candidates, htry]
        exact h1
      · simp only [place_candidates, htry]
        exact le_trans h3 (Nat.le_succ _)
    | some axb =>
      obtain ⟨ax, bx⟩ := axb
      obtain ⟨hin, hov⟩ := try_offsets_sound htry
      obtain ⟨acc, h1, h2, h3⟩ := ih (placed ++ [bx])
      refine ⟨bx :: acc, ?_, ?_, ?_⟩
      · simp only [place_candidates, htry]
        rw [h1]
        simp
      · intro i hi
        match i with
        | 0 =>
          refine ⟨hin, ?_⟩
          intro pb hpb
          simp only [List.take_zero, List.append_nil] at hpb
          exact hov pb hpb
        | (i + 1) =>
          have hi' : i < acc.length := by simpa using hi
          obtain ⟨hin', hov'⟩ := h2 i hi'
          refine ⟨hin', ?_⟩
          intro pb hpb
          apply hov' pb
          simp only [List.take_succ_cons] at hpb
          simpa using hpb
      · simp only [place_candidates, htry]
        simpa using Nat.succ_le_succ h3

lemma cand_le_trans {α : Type} [LinearOrderedField α] :
    ∀ (a b c : Cand α), decide (a.magnitude ≤ b.magnitude) →
      decide (b.magnitude ≤ c.magnitude) → decide (a.magnitude ≤ c.magnitude) := by
  intro a b c hab hbc
  simp only [decide_eq_true_eq] at *
  exact le_trans hab hbc

lemma cand_le_total {α : Type} [LinearOrderedField α] :
    ∀ (a b : Cand α),
      decide (a.magnitude ≤ b.magnitude) || decide (b.magnitude ≤ a.magnitude) := by
  intro a b
  rcases le_total a.magnitude b.magnitude with h | h <;> simp [h]

/-- C5: every accepted label box lies entirely in the plot rectangle and
overlaps no previously placed box (seeded symbol boxes and earlier labels);
candidates are processed brightest-first — the sorted list is ascending by
magnitude, a permutation of the input, and ties keep encounter order — and
a candidate with no valid offset simply emits nothing (at most one label
per candidate, no error). -/
theorem C5_label_placement {α : Type} [LinearOrderedField α]
    (left top right bottom : α) (seeds : List (Box α)) (cands : List (Cand α)) :
    ((render_labels left top right bottom seeds cands).1.take seeds.length = seeds) ∧
    (∀ j (hj : j < (render_labels left top right bottom seeds cands).1.length),
        seeds.length ≤ j →
        in_plot left top right bottom
          ((render_labels left top right bottom seeds cands).1.get ⟨j, hj⟩) = true ∧
        ∀ k (hk : k < j),
          boxes_overlap
            ((render_labels left top right bottom seeds cands).1.get ⟨j, hj⟩)
            ((render_labels left top right bottom seeds cands).1.get
              ⟨k, lt_trans hk hj⟩) = false) ∧
    ((sort_cands cands).Pairwise (fun a b => a.magnitude ≤ b.magnitude)) ∧
    ((sort_cands cands).Perm cands) ∧
    (∀ m : α, (sort_cands cands).filter (fun c => decide (c.magnitude = m)) =
        cands.filter (fun c => decide (c.magnitude = m))) ∧
    ((render_labels left top right bottom seeds cands).2.length ≤ cands.length) := by
  obtain ⟨acc, h1, h2, h3⟩ :=
    place_candidates_spec left top right bottom (sort_cands cands) seeds
  have hfst : (render_labels left top right bottom seeds cands).1 = seeds ++ acc := h1
  refine ⟨?_, ?_, ?_, ?_, ?_, ?_⟩
  · rw [hfst]
    exact List.take_left seeds acc
  · intro j hj hsj
    have hjlen : j < seeds.length + acc.length := by
      rw [hfst] at hj
      simpa using hj
    have hacc : j - seeds.length < acc.length := by omega
    have hget : (render_labels left top right bottom seeds cands).1.get ⟨j, hj⟩ =
        acc.get ⟨j - seeds.length, hacc⟩ := by
      simp only [List.get_eq_getElem, hfst]
      exact List.getElem_append_right hsj
    obtain ⟨hin, hov⟩ := h2 (j - seeds.length) hacc
    rw [hget]
    refine ⟨hin, ?_⟩
    intro k hk
    apply hov
    by_cases hks : k < seeds.length
    · have : (render_labels left top right bottom seeds cands).1.get
          ⟨k, lt_trans hk hj⟩ = seeds.get ⟨k, hks⟩ := by
        simp only [List.get_eq_getElem, hfst]
        exact List.getElem_append_left hks
      rw [this]
      exact List.mem_append_left _ (List.get_mem seeds _ _)
    · push_neg at hks
      have hka : k - seeds.length < acc.length := by omega
      have : (render_labels left top right bottom seeds cands).1.get
          ⟨k, lt_trans hk hj⟩ = acc.get ⟨k - seeds.length, hka⟩ := by
        simp only [List.get_eq_getElem, hfst]
        exact List.getElem_append_right hks
      rw [this]
      apply List.mem_append_right
      simp only [List.get_eq_getElem]
      exact getElem_mem_take (by omega) hka
  · exact (List.sorted_mergeSort cand_le_trans cand_le_total cands).imp
      (fun h => by simpa using h)
  · exact List.mergeSort_perm cands _
  · intro m
    have hsubl : List.Sublist (cands.filter (fun c => decide (c.magnitude = m))) cands :=
      List.filter_sublist _
    have hpair : (cands.filter (fun c => decide (c.magnitude = m))).Pairwise
        (fun a b => decide (a.magnitude ≤ b.magnitude) = true) := by
      apply List.pairwise_of_forall_mem_list
      intro a ha b hb
      have ha' := (List.mem_filter.mp ha).2
      have hb' := (List.mem_filter.mp hb).2
      simp only [decide_eq_true_eq] at ha' hb' ⊢
      rw [ha', hb']
    have hsub2 := List.sublist_mergeSort cand_le_trans cand_le_total hpair hsubl
    have hsub3 : List.Sublist (cands.filter (fun c => decide (c.magnitude = m)))
        ((sort_cands cands).filter (fun c => decide (c.magnitude = m))) := by
      have hc : (cands.filter (fun c => decide (c.magnitude = m))).filter
          (fun c => decide (c.magnitude = m)) =
          cands.filter (fun c => decide (c.magnitude = m)) :=
        List.filter_eq_self.mpr (fun a ha => (List.mem_filter.mp ha).2)
      have h4 := hsub2.filter (fun c => decide (c.magnitude = m))
      rwa [hc] at h4
    have hperm : ((sort_cands cands).filter (fun c => decide (c.magnitude = m))).Perm
        (cands.filter (fun c => decide (c.magnitude = m))) :=
      (List.mergeSort_perm cands _).filter _
    exact (hsub3.eq_of_length hperm.length_eq.symm).symm
  · exact le_trans h3 (le_of_eq (List.length_mergeSort _))

/-- Concrete run of the placement engine on `ℚ`: two equal-position
candidates; the brighter one takes the first offset, the dimmer one is
pushed to the second offset. -/
lemma render_labels_example :
    (render_labels (0 : ℚ) 0 100 100 []
      [⟨1, true, "AB", ⟨50, 50⟩⟩, ⟨2, true, "CD", ⟨50, 50⟩⟩]).1 =
    [⟨42, 28, 16, 12⟩, ⟨42, 48, 16, 12⟩] := by
  have hAB : ("AB" : String).length = 2 := rfl
  have hCD : ("CD" : String).length = 2 := rfl
  have hsorted : sort_cands [(⟨1, true, "AB", ⟨50, 50⟩⟩ : Cand ℚ),
      ⟨2, true, "CD", ⟨50, 50⟩⟩] =
      [⟨1, true, "AB", ⟨50, 50⟩⟩, ⟨2, true, "CD", ⟨50, 50⟩⟩] :=
    List.mergeSort_of_sorted (by norm_num [List.pairwise_cons])
  rw [render_labels, hsorted]
  norm_num [place_candidates, try_offsets, label_offsets, label_box_centered,
    boxes_overlap, hAB, hCD, max_def]

/-- Witness for C5 at the concrete two-candidate run: the dimmer label's box
is inside the plot and does not overlap the brighter label's box. -/
theorem C5_label_placement_witness :
    in_plot (0 : ℚ) 0 100 100 (⟨42, 48, 16, 12⟩ : Box ℚ) = true ∧
    boxes_overlap (⟨42, 48, 16, 12⟩ : Box ℚ) (⟨42, 28, 16, 12⟩ : Box ℚ) = false := by
  have hj : 1 < (render_labels (0 : ℚ) 0 100 100 []
      [⟨1, true, "AB", ⟨50, 50⟩⟩, ⟨2, true, "CD", ⟨50, 50⟩⟩]).1.length := by
    rw [render_labels_example]
    norm_num
  have h := (C5_label_placement (0 : ℚ) 0 100 100 []
    [⟨1, true, "AB", ⟨50, 50⟩⟩, ⟨2, true, "CD", ⟨50, 50⟩⟩]).2.1 1 hj (by norm_num)
  have hg1 : (render_labels (0 : ℚ) 0 100 100 []
      [⟨1, true, "AB", ⟨50, 50⟩⟩, ⟨2, true, "CD", ⟨50, 50⟩⟩]).1.get ⟨1, hj⟩ =
      (⟨42, 48, 16, 12⟩ : Box ℚ) := by
    simp [List.get_eq_getElem, render_labels_example]
  have hg0 : ∀ hk0, (render_labels (0 : ℚ) 0 100 100 []
      [⟨1, true, "AB", ⟨50, 50⟩⟩, ⟨2, true, "CD", ⟨50, 50⟩⟩]).1.get ⟨0, hk0⟩ =
      (⟨42, 28, 16, 12⟩ : Box ℚ) := by
    intro hk0
    simp [List.get_eq_getElem, render_labels_example]
  obtain ⟨ha, hb⟩ := h
  constructor
  · rw [← hg1]
    exact ha
  · have hov := hb 0 (by norm_num)
    rw [hg1, hg0] at hov
    exact hov

end Charter
